import Mathlib

/-!
# termsaver: a self-avoiding random walk on the terminal grid

A shallow embedding of `src/main.c` and the properties of its walk.

Modelling conventions.

* C `int` and `size_t` values are embedded as `Int` and `Nat`, and the
  conversions between them (`(int) num_rows`, `grid[..] = counter++`,
  `rand() % num_rows`) as the inclusion of `Nat` in `Int`.  Every value the
  walk stores in an `int` (a row, a column, a step index) is bounded by the
  cell count plus one, and the cell count is below `2^31`: the fields of
  `struct winsize` are `unsigned short` (lemma `winsize_cells_fit_int`), and
  `grid` is an automatic array of that many `int`s.  So no conversion in the
  walk wraps.
* Behaviour that C leaves undefined (a remainder by zero, an array access
  outside `grid[num_rows][num_cols]`) is a `Fault`.
* `rand()` is a stream `rand : Nat → Nat` of non-negative draws together with
  the number of draws consumed so far; `kbd_hit()` inside `main` is a stream
  `kbd : Nat → Bool` of poll results together with the number of polls made.
* Escape sequences written to the terminal and the 50 ms sleeps do not touch
  the walk state and are left out of the state.
-/

namespace Termsaver

/-! ## Terminal geometry -/

/-- The constant `COL_WIDTH` of `main.c`. -/
def COL_WIDTH : Nat := 3

/-- The two fields of `struct winsize` read by `get_window_size`. -/
structure Winsize where
  ws_row : Nat
  ws_col : Nat
deriving DecidableEq, Repr

/-- What a geometry routine does: it ends the process with `EXIT_FAILURE`,
returns `-1`, or returns `0` after storing `rows` and `cols`. -/
inductive Geometry where
  | exitFailure : Geometry
  | error : Geometry
  | ok (rows cols : Nat) : Geometry
deriving DecidableEq, Repr

/-- The read loop of `get_cursor_position`: with `room` bytes left in `buf`,
bytes are taken from standard input one at a time until a read fails or the
byte `R` (82) arrives; the result is the contents of `buf` before the
terminating NUL. -/
def readReply : Nat → List Nat → List Nat
  | 0, _ => []
  | _ + 1, [] => []
  | room + 1, ch :: rest => if ch = 82 then [] else ch :: readReply room rest

/-- The function `get_cursor_position`.  `write6n` tells whether the write of
the four-byte request returned 4, `input` is what standard input delivers and
`scan` is the library call `sscanf(_, "%zu;%zu", rows, cols)` on the string
that starts at `buf[2]` and ends before the first NUL, giving the two numbers
when it matched both. -/
def get_cursor_position (write6n : Bool) (input : List Nat)
    (scan : List Nat → Option (Nat × Nat)) : Geometry :=
  if write6n then
    let buf := readReply 31 input
    if buf.getD 0 0 ≠ 27 ∨ buf.getD 1 0 ≠ 91 then Geometry.error
    else
      match scan ((buf.drop 2).takeWhile (fun ch => ch ≠ 0)) with
      | some (rows, cols) => Geometry.ok rows cols
      | none => Geometry.error
  else Geometry.exitFailure

/-- The function `get_window_size`.  The argument `ioctl` is the outcome of
`ioctl(STDOUT_FILENO, TIOCGWINSZ, &ws)`, with `none` for a return value of
`-1`; `writeCorner` tells whether the twelve-byte cursor move was written in
full. -/
def get_window_size (ioctl : Option Winsize) (writeCorner write6n : Bool)
    (input : List Nat) (scan : List Nat → Option (Nat × Nat)) : Geometry :=
  match ioctl with
  | none =>
    if writeCorner then get_cursor_position write6n input scan else Geometry.error
  | some ws =>
    if ws.ws_col = 0 then
      if writeCorner then get_cursor_position write6n input scan else Geometry.error
    else Geometry.ok ws.ws_row ws.ws_col

/-- Lines 111-112 of `main`: the grid dimensions `(num_rows, num_cols)`, or
`none` when the process has exited with `EXIT_FAILURE`. -/
def gridSize (ioctl : Option Winsize) (writeCorner write6n : Bool)
    (input : List Nat) (scan : List Nat → Option (Nat × Nat)) : Option (Nat × Nat) :=
  match get_window_size ioctl writeCorner write6n input scan with
  | Geometry.exitFailure => none
  | Geometry.error => none
  | Geometry.ok rows cols => some (rows, cols / COL_WIDTH)

/-! ## The walk -/

/-- Undefined behaviour the walk could run into. -/
inductive Fault where
  | divByZero : Fault
  | outOfBounds : Fault
deriving DecidableEq, Repr

/-- The variables of `main` that the walk reads and writes, with the number
of `rand()` calls and of `kbd_hit()` calls made so far. -/
structure Walk where
  grid : List (List Int)
  row : Int
  col : Int
  r : Nat
  g : Nat
  b : Nat
  counter : Nat
  draws : Nat
  polls : Nat
deriving DecidableEq, Repr

/-- The grid after `memset(grid, 0, ...)`. -/
def zeroGrid (num_rows num_cols : Nat) : List (List Int) :=
  List.replicate num_rows (List.replicate num_cols 0)

/-- The value of `grid[i][j]` for natural indices, if the cell exists. -/
def cellAt (grid : List (List Int)) (i j : Nat) : Option Int :=
  match grid[i]? with
  | some cells => cells[j]?
  | none => none

/-- The grid with `grid[i][j]` replaced by `v`. -/
def setCell (grid : List (List Int)) (i j : Nat) (v : Int) : List (List Int) :=
  match grid[i]? with
  | some cells => grid.set i (cells.set j v)
  | none => grid

/-- A read of `grid[r][c]` in an array declared `int grid[num_rows][num_cols]`. -/
def readCell (num_rows num_cols : Nat) (grid : List (List Int)) (r c : Int) :
    Except Fault Int :=
  if 0 ≤ r ∧ r < (num_rows : Int) ∧ 0 ≤ c ∧ c < (num_cols : Int) then
    match cellAt grid r.toNat c.toNat with
    | some v => Except.ok v
    | none => Except.error Fault.outOfBounds
  else Except.error Fault.outOfBounds

/-- The assignment `grid[r][c] = v`. -/
def writeCell (num_rows num_cols : Nat) (grid : List (List Int)) (r c : Int) (v : Int) :
    Except Fault (List (List Int)) :=
  if 0 ≤ r ∧ r < (num_rows : Int) ∧ 0 ≤ c ∧ c < (num_cols : Int) then
    match cellAt grid r.toNat c.toNat with
    | some _ => Except.ok (setCell grid r.toNat c.toNat v)
    | none => Except.error Fault.outOfBounds
  else Except.error Fault.outOfBounds

/-- The four flags `up`, `down`, `left`, `right`. -/
structure Dirs where
  up : Bool
  down : Bool
  left : Bool
  right : Bool
deriving DecidableEq, Repr

/-- One test of lines 144-151: `blocked || grid[r][c]` with the short-circuit
evaluation of `||`; the result is the value left in the direction flag. -/
def freeCell (num_rows num_cols : Nat) (grid : List (List Int)) (outside : Bool)
    (r c : Int) : Except Fault Bool :=
  if outside then Except.ok false
  else
    match readCell num_rows num_cols grid r c with
    | Except.ok v => Except.ok (decide (v = 0))
    | Except.error f => Except.error f

/-- Lines 140-151: the availability of the four directions. -/
def checkDirs (num_rows num_cols : Nat) (w : Walk) : Except Fault Dirs :=
  match freeCell num_rows num_cols w.grid (decide (w.row - 1 < 0)) (w.row - 1) w.col with
  | Except.error f => Except.error f
  | Except.ok up =>
    match freeCell num_rows num_cols w.grid (decide (w.row + 1 ≥ (num_rows : Int)))
        (w.row + 1) w.col with
    | Except.error f => Except.error f
    | Except.ok down =>
      match freeCell num_rows num_cols w.grid (decide (w.col - 1 < 0)) w.row (w.col - 1) with
      | Except.error f => Except.error f
      | Except.ok left =>
        match freeCell num_rows num_cols w.grid (decide (w.col + 1 ≥ (num_cols : Int)))
            w.row (w.col + 1) with
        | Except.error f => Except.error f
        | Except.ok right => Except.ok { up := up, down := down, left := left, right := right }

/-- A move of the `switch`: the position becomes `(r, c)`, the cell there
receives `counter`, `counter` is incremented and `moved` is set. -/
def moveTo (num_rows num_cols : Nat) (w : Walk) (r c : Int) : Except Fault (Walk × Bool) :=
  match writeCell num_rows num_cols w.grid r c (w.counter : Int) with
  | Except.ok grid =>
    Except.ok ({ w with grid := grid, row := r, col := c, counter := w.counter + 1 }, true)
  | Except.error f => Except.error f

/-- The label `case 3` and what follows it. -/
def case3 (num_rows num_cols : Nat) (d : Dirs) (w : Walk) : Except Fault (Walk × Bool) :=
  if d.right then moveTo num_rows num_cols w w.row (w.col + 1) else Except.ok (w, false)

/-- The label `case 2`, falling through to `case 3`. -/
def case2 (num_rows num_cols : Nat) (d : Dirs) (w : Walk) : Except Fault (Walk × Bool) :=
  if d.left then moveTo num_rows num_cols w w.row (w.col - 1) else case3 num_rows num_cols d w

/-- The label `case 1`, falling through to `case 2`. -/
def case1 (num_rows num_cols : Nat) (d : Dirs) (w : Walk) : Except Fault (Walk × Bool) :=
  if d.down then moveTo num_rows num_cols w (w.row + 1) w.col else case2 num_rows num_cols d w

/-- The label `case 0`, falling through to `case 1`. -/
def case0 (num_rows num_cols : Nat) (d : Dirs) (w : Walk) : Except Fault (Walk × Bool) :=
  if d.up then moveTo num_rows num_cols w (w.row - 1) w.col else case1 num_rows num_cols d w

/-- Lines 159-194: the `switch (direction)`; the Boolean is `moved`. -/
def switchDirection (num_rows num_cols : Nat) (direction : Nat) (d : Dirs) (w : Walk) :
    Except Fault (Walk × Bool) :=
  match direction with
  | 0 => case0 num_rows num_cols d w
  | 1 => case1 num_rows num_cols d w
  | 2 => case2 num_rows num_cols d w
  | 3 => case3 num_rows num_cols d w
  | _ => Except.ok (w, false)

/-- Where the program stands with respect to the inner `while` loop. -/
inductive Config where
  | running (w : Walk) : Config
  | blocked (w : Walk) : Config
  | full (w : Walk) : Config
  | exited (w : Walk) : Config
  | fault (f : Fault) : Config
deriving DecidableEq, Repr

/-- Lines 140-194: one pass through the body of the inner `while` up to the
end of the `switch`, for the value `direction` of `rand() % 4`.  The result
is `none` for the `break` of line 155 and otherwise the new state with the
flag `moved`; `rand()` is only called when the pass gets beyond the `break`. -/
def stepBody (num_rows num_cols : Nat) (direction : Nat) (w : Walk) :
    Except Fault (Option (Walk × Bool)) :=
  match checkDirs num_rows num_cols w with
  | Except.error f => Except.error f
  | Except.ok d =>
    if (!d.up && !d.down && !d.left && !d.right) = true then Except.ok none
    else
      match switchDirection num_rows num_cols direction d w with
      | Except.error f => Except.error f
      | Except.ok (w1, moved) => Except.ok (some (w1, moved))

/-- Lines 139-216: the loop test and one pass through the body of the inner
`while`.  The loop is left as `full` when the test fails, as `blocked` by the
`break`, as `exited` when `kbd_hit()` reports a key after a painted move. -/
def loopStep (num_rows num_cols : Nat) (rand : Nat → Nat) (kbd : Nat → Bool) (w : Walk) :
    Config :=
  if w.counter ≤ num_rows * num_cols then
    match stepBody num_rows num_cols (rand w.draws % 4) w with
    | Except.error f => Config.fault f
    | Except.ok none => Config.blocked w
    | Except.ok (some (w1, moved)) =>
      if moved = true then
        if kbd w1.polls = true then
          Config.exited { w1 with draws := w1.draws + 1, polls := w1.polls + 1 }
        else Config.running { w1 with draws := w1.draws + 1, polls := w1.polls + 1 }
      else Config.running { w1 with draws := w1.draws + 1 }
  else Config.full w

/-- The inner `while` loop run for at most `fuel` passes; the result is
`running` when the loop has not been left yet. -/
def innerLoop (num_rows num_cols : Nat) (rand : Nat → Nat) (kbd : Nat → Bool) :
    Nat → Walk → Config
  | 0, w => Config.running w
  | fuel + 1, w =>
    match loopStep num_rows num_cols rand kbd w with
    | Config.running w1 => innerLoop num_rows num_cols rand kbd fuel w1
    | c => c

/-- Lines 129-137: the origin and the colour are drawn and the origin is
marked with `counter++`. -/
def cycleStart (num_rows num_cols : Nat) (rand : Nat → Nat) (w : Walk) : Except Fault Walk :=
  if num_rows = 0 then Except.error Fault.divByZero
  else if num_cols = 0 then Except.error Fault.divByZero
  else
    let row : Int := ((rand w.draws % num_rows : Nat) : Int)
    let col : Int := ((rand (w.draws + 1) % num_cols : Nat) : Int)
    match writeCell num_rows num_cols w.grid row col (w.counter : Int) with
    | Except.error f => Except.error f
    | Except.ok grid =>
      Except.ok { grid := grid, row := row, col := col,
                  r := rand (w.draws + 2) % 256, g := rand (w.draws + 3) % 256,
                  b := rand (w.draws + 4) % 256,
                  counter := w.counter + 1, draws := w.draws + 5, polls := w.polls }

/-- A walk cycle after its start and at most `fuel` passes of the inner loop. -/
def cycleRun (num_rows num_cols : Nat) (rand : Nat → Nat) (kbd : Nat → Bool) (fuel : Nat)
    (w : Walk) : Config :=
  match cycleStart num_rows num_cols rand w with
  | Except.error f => Config.fault f
  | Except.ok w1 => innerLoop num_rows num_cols rand kbd fuel w1

/-- The inner `for` of lines 226-227 with `k` columns still to clear. -/
def resetCols (num_rows num_cols : Nat) (i : Nat) :
    Nat → List (List Int) → Except Fault (List (List Int))
  | 0, grid => Except.ok grid
  | k + 1, grid =>
    match writeCell num_rows num_cols grid (i : Int) ((num_cols - (k + 1) : Nat) : Int) 0 with
    | Except.ok grid1 => resetCols num_rows num_cols i k grid1
    | Except.error f => Except.error f

/-- The outer `for` of lines 225-228 with `k` rows still to clear. -/
def resetRows (num_rows num_cols : Nat) :
    Nat → List (List Int) → Except Fault (List (List Int))
  | 0, grid => Except.ok grid
  | k + 1, grid =>
    match resetCols num_rows num_cols (num_rows - (k + 1)) num_cols grid with
    | Except.ok grid1 => resetRows num_rows num_cols k grid1
    | Except.error f => Except.error f

/-- Lines 225-230: the grid is cleared cell by cell and `counter` is set to 1. -/
def cycleReset (num_rows num_cols : Nat) (w : Walk) : Except Fault Walk :=
  match resetRows num_rows num_cols num_rows w.grid with
  | Except.ok grid => Except.ok { w with grid := grid, counter := 1 }
  | Except.error f => Except.error f

/-- The state of `main` when it enters `for (;;)` for the first time; `row`,
`col` and the colour are not initialised there and are given as arguments. -/
def startWalk (num_rows num_cols : Nat) (row col : Int) (r g b : Nat) : Walk :=
  { grid := zeroGrid num_rows num_cols, row := row, col := col, r := r, g := g, b := b,
    counter := 1, draws := 0, polls := 0 }

/-! ## The keyboard poll

The library calls of `kbd_hit` act on the terminal behind file descriptor 0
and on the stream `stdin`.  They are modelled on a state that holds the
terminal settings, the file status flags, the bytes typed and not yet read,
and the bytes the stream has already taken; every call succeeds. -/

/-- The local-mode flag `ICANON` of `termios.h` (value on Linux). -/
def ICANON : Nat := 2

/-- The local-mode flag `ECHO` of `termios.h` (value on Linux). -/
def ECHO : Nat := 8

/-- The file status flag `O_NONBLOCK` of `fcntl.h` (value on Linux). -/
def O_NONBLOCK : Nat := 2048

/-- The value `EOF` of `stdio.h`. -/
def EOF : Int := -1

/-- The complement `~x` of an `int` flag mask, converted to the 32-bit
unsigned type `tcflag_t`. -/
def flagComplement (x : Nat) : Nat := 2 ^ 32 - 1 - x

/-- A flag word has one of the bits of a mask set. -/
def hasFlag (word mask : Nat) : Bool := decide (word &&& mask ≠ 0)

/-- The fields of `struct termios`. -/
structure Termios where
  c_iflag : Nat
  c_oflag : Nat
  c_cflag : Nat
  c_lflag : Nat
  c_cc : List Nat
deriving DecidableEq, Repr

/-- Standard input: the settings of the terminal, the file status flags of
descriptor 0, the bytes typed and not yet read from the terminal (`queue`) and
the bytes held by the stream `stdin`, the next one to be read first
(`buffer`). -/
structure Stdin where
  termios : Termios
  fl : Nat
  queue : List Nat
  buffer : List Nat
deriving DecidableEq, Repr

/-- The bytes of a queue up to and including the first newline, or nothing
when no line is complete. -/
def firstLine : List Nat → List Nat
  | [] => []
  | ch :: rest =>
    if ch = 10 then [ch]
    else
      match firstLine rest with
      | [] => []
      | more => ch :: more

/-- The bytes a `read` on the terminal delivers at once: in canonical mode a
complete line, otherwise everything typed so far. -/
def readable (s : Stdin) : List Nat :=
  if hasFlag s.termios.c_lflag ICANON = true then firstLine s.queue else s.queue

/-- The call `getchar()`: the next byte of the stream; when the stream holds
none it reads from the terminal, and when the terminal delivers nothing the
call returns `EOF` if `O_NONBLOCK` is set and blocks (`none`) otherwise. -/
def getchar (s : Stdin) : Option (Int × Stdin) :=
  match s.buffer with
  | ch :: rest => some ((ch : Int), { s with buffer := rest })
  | [] =>
    match readable s with
    | ch :: rest =>
      some ((ch : Int), { s with queue := s.queue.drop (rest.length + 1), buffer := rest })
    | [] => if hasFlag s.fl O_NONBLOCK = true then some (EOF, s) else none

/-- The call `ungetc(ch, stdin)`. -/
def ungetc (ch : Int) (s : Stdin) : Stdin :=
  { s with buffer := ch.toNat :: s.buffer }

/-- The function `kbd_hit`, with its return value; `none` when it does not
return. -/
def kbd_hit (s : Stdin) : Option (Int × Stdin) :=
  let oldt := s.termios
  let newt := { oldt with c_lflag := oldt.c_lflag &&& flagComplement (ICANON ||| ECHO) }
  let s1 := { s with termios := newt }
  let oldf := s1.fl
  let s2 := { s1 with fl := oldf ||| O_NONBLOCK }
  match getchar s2 with
  | none => none
  | some (ch, s3) =>
    let s4 := { s3 with termios := oldt }
    let s5 := { s4 with fl := oldf }
    if ch ≠ EOF then some (1, ungetc ch s5) else some (0, s5)

/-- A character is pending on standard input. -/
def Stdin.pending (s : Stdin) : Bool :=
  !(s.buffer ++ s.queue).isEmpty

/-- The bytes still to be read from standard input, in order. -/
def Stdin.unread (s : Stdin) : List Nat :=
  s.buffer ++ s.queue

/-! ## Predicates used in the statements -/

/-- A grid with `num_rows` rows of `num_cols` cells each. -/
def GridWF (num_rows num_cols : Nat) (grid : List (List Int)) : Prop :=
  grid.length = num_rows ∧ ∀ cells ∈ grid, cells.length = num_cols

/-- The non-zero cells of the grid hold exactly the values `1..k`, each of
them in exactly one cell. -/
def MarksExactly (num_rows num_cols : Nat) (grid : List (List Int)) (k : Nat) : Prop :=
  (∀ i j v, cellAt grid i j = some v → v ≠ 0 → 1 ≤ v ∧ v ≤ (k : Int)) ∧
  (∀ v : Int, 1 ≤ v → v ≤ (k : Int) →
    ∃ i j, i < num_rows ∧ j < num_cols ∧ cellAt grid i j = some v ∧
      ∀ i1 j1, cellAt grid i1 j1 = some v → i1 = i ∧ j1 = j)

/-- Every non-zero cell of `grid` holds the same value in `grid1`. -/
def KeepsMarks (grid grid1 : List (List Int)) : Prop :=
  ∀ i j v, cellAt grid i j = some v → v ≠ 0 → cellAt grid1 i j = some v

/-- The walk state a configuration carries, if it carries one. -/
def Config.walk? : Config → Option Walk
  | Config.running w => some w
  | Config.blocked w => some w
  | Config.full w => some w
  | Config.exited w => some w
  | Config.fault _ => none

/-- The inner loop has been left (by the loop test, by the `break` or by the
exit after a key press). -/
def Config.finished : Config → Bool
  | Config.running _ => false
  | Config.blocked _ => true
  | Config.full _ => true
  | Config.exited _ => true
  | Config.fault _ => false

/-- What holds of the walk state at the loop test of the inner `while`, for a
cycle that began after `p0` polls of the keyboard. -/
def WalkInv (num_rows num_cols p0 : Nat) (w : Walk) : Prop :=
  GridWF num_rows num_cols w.grid ∧
  0 ≤ w.row ∧ w.row < (num_rows : Int) ∧ 0 ≤ w.col ∧ w.col < (num_cols : Int) ∧
  2 ≤ w.counter ∧ w.counter ≤ num_rows * num_cols + 1 ∧
  MarksExactly num_rows num_cols w.grid (w.counter - 1) ∧
  cellAt w.grid w.row.toNat w.col.toNat = some ((w.counter : Int) - 1) ∧
  w.polls + 2 = w.counter + p0

/-- The four directions, in the order of the case labels 0, 1, 2, 3. -/
inductive Dir where
  | up : Dir
  | down : Dir
  | left : Dir
  | right : Dir
deriving DecidableEq, Repr

/-- The direction tried at a case label. -/
def Dir.ofLabel : Nat → Dir
  | 0 => Dir.up
  | 1 => Dir.down
  | 2 => Dir.left
  | _ => Dir.right

/-- The flag of a direction. -/
def Dirs.avail (d : Dirs) : Dir → Bool
  | Dir.up => d.up
  | Dir.down => d.down
  | Dir.left => d.left
  | Dir.right => d.right

/-- The cell next to the current one in a direction. -/
def Walk.neighbour (w : Walk) : Dir → Int × Int
  | Dir.up => (w.row - 1, w.col)
  | Dir.down => (w.row + 1, w.col)
  | Dir.left => (w.row, w.col - 1)
  | Dir.right => (w.row, w.col + 1)

/-- The state after a move to `(r, c)`: the cell is marked with `counter`,
the position is `(r, c)` and `counter` is one more. -/
def Walk.mark (w : Walk) (r c : Int) : Walk :=
  { w with grid := setCell w.grid r.toNat c.toNat (w.counter : Int),
           row := r, col := c, counter := w.counter + 1 }

/-- The order in which the `switch` tries the directions after a draw of
`direction`: the case labels `direction, direction + 1, ..., 3`. -/
def fallthroughOrder (direction : Nat) : List Dir :=
  ((List.range 4).drop direction).map Dir.ofLabel

/-- The order of the specification: the four directions in the cyclic order
`direction, direction + 1, direction + 2, direction + 3` modulo 4. -/
def cyclicOrder (direction : Nat) : List Dir :=
  (List.range 4).map (fun k => Dir.ofLabel ((direction + k) % 4))

/-- The first direction of `order` whose flag is set. -/
def firstAvailable (d : Dirs) (order : List Dir) : Option Dir :=
  order.find? d.avail

/-- A step that moves to the first available direction of `order`, and makes
no move when there is none. -/
def moveFirst (d : Dirs) (order : List Dir) (w : Walk) : Walk × Bool :=
  match firstAvailable d order with
  | some dir => (w.mark (w.neighbour dir).1 (w.neighbour dir).2, true)
  | none => (w, false)

/-- The draw 0 keeps coming back: after every position of the stream there
is a draw whose remainder modulo 4 is 0. -/
def DrawsUpAgain (rand : Nat → Nat) : Prop :=
  ∀ t, ∃ u, t ≤ u ∧ rand u % 4 = 0

/-! ## Lemmas on grids -/

theorem cellAt_lt {R C : Nat} {grid : List (List Int)} (hg : GridWF R C grid)
    {i j : Nat} {v : Int} (h : cellAt grid i j = some v) : i < R ∧ j < C := by
  unfold cellAt at h
  cases hi : grid[i]? with
  | none => simp [hi] at h
  | some cells =>
    simp only [hi] at h
    obtain ⟨hlen, hrow⟩ := hg
    have h1 : i < grid.length := by
      by_contra hcon
      rw [List.getElem?_eq_none (by omega)] at hi
      cases hi
    have hmem : cells ∈ grid := List.getElem?_mem hi
    have h2 : j < cells.length := by
      by_contra hcon
      rw [List.getElem?_eq_none (by omega)] at h
      cases h
    rw [hrow cells hmem] at h2
    exact ⟨by omega, h2⟩

theorem cellAt_some {R C : Nat} {grid : List (List Int)} (hg : GridWF R C grid)
    {i j : Nat} (hi : i < R) (hj : j < C) : ∃ v, cellAt grid i j = some v := by
  obtain ⟨hlen, hrow⟩ := hg
  have h1 : i < grid.length := by omega
  have hmem : grid[i] ∈ grid := List.getElem_mem h1
  have h2 : j < (grid[i]).length := by rw [hrow _ hmem]; exact hj
  refine ⟨(grid[i])[j], ?_⟩
  unfold cellAt
  rw [List.getElem?_eq_getElem h1]
  simp only
  exact List.getElem?_eq_getElem h2

theorem gridWF_setCell {R C : Nat} {grid : List (List Int)} (hg : GridWF R C grid)
    (i j : Nat) (v : Int) : GridWF R C (setCell grid i j v) := by
  unfold setCell
  cases hi : grid[i]? with
  | none => simpa using hg
  | some cells =>
    obtain ⟨hlen, hrow⟩ := hg
    have hmem : cells ∈ grid := List.getElem?_mem hi
    refine ⟨by simp [hlen], ?_⟩
    intro cs hcs
    simp only at hcs
    rcases List.mem_or_eq_of_mem_set hcs with h | h
    · exact hrow cs h
    · rw [h, List.length_set]; exact hrow cells hmem

theorem cellAt_setCell_same {R C : Nat} {grid : List (List Int)} (hg : GridWF R C grid)
    {i j : Nat} (hi : i < R) (hj : j < C) (v : Int) :
    cellAt (setCell grid i j v) i j = some v := by
  obtain ⟨hlen, hrow⟩ := hg
  have h1 : i < grid.length := by omega
  have hmem : grid[i] ∈ grid := List.getElem_mem h1
  have h2 : j < (grid[i]).length := by rw [hrow _ hmem]; exact hj
  unfold setCell cellAt
  rw [List.getElem?_eq_getElem h1]
  simp only
  rw [List.getElem?_set_self (by simpa using h1)]
  · simp only
    rw [List.getElem?_set_self (by simpa using h2)]

theorem cellAt_setCell_ne (grid : List (List Int)) {i j i1 j1 : Nat} (v : Int)
    (h : ¬ (i1 = i ∧ j1 = j)) :
    cellAt (setCell grid i j v) i1 j1 = cellAt grid i1 j1 := by
  unfold setCell
  cases hi : grid[i]? with
  | none => rfl
  | some cells =>
    simp only
    unfold cellAt
    by_cases hii : i1 = i
    · subst hii
      have hj : j1 ≠ j := fun hj => h ⟨rfl, hj⟩
      have h1 : i1 < grid.length := by
        by_contra hcon
        rw [List.getElem?_eq_none (by omega)] at hi
        cases hi
      rw [List.getElem?_set_self (by simpa using h1), hi]
      simp only
      rw [List.getElem?_set_ne (Ne.symm hj)]
    · rw [List.getElem?_set_ne (Ne.symm hii)]

theorem gridWF_zeroGrid (R C : Nat) : GridWF R C (zeroGrid R C) := by
  unfold zeroGrid
  refine ⟨by simp, ?_⟩
  intro cells h
  rw [List.mem_replicate] at h
  rw [h.2]; simp

theorem cellAt_zeroGrid {R C i j : Nat} (hi : i < R) (hj : j < C) :
    cellAt (zeroGrid R C) i j = some 0 := by
  unfold cellAt zeroGrid
  rw [List.getElem?_replicate]
  simp [hi, hj, List.getElem?_replicate]


theorem marks_zeroGrid (R C : Nat) : MarksExactly R C (zeroGrid R C) 0 := by
  constructor
  · intro i j v h hv
    have hb := cellAt_lt (gridWF_zeroGrid R C) h
    rw [cellAt_zeroGrid hb.1 hb.2] at h
    exact absurd (Option.some.inj h).symm hv
  · intro v h1 h2
    omega

theorem marks_setCell {R C : Nat} {grid : List (List Int)} {k i j : Nat}
    (hg : GridWF R C grid) (hm : MarksExactly R C grid k) (hi : i < R) (hj : j < C)
    (h0 : cellAt grid i j = some 0) :
    MarksExactly R C (setCell grid i j ((k + 1 : Nat) : Int)) (k + 1) := by
  obtain ⟨hval, hex⟩ := hm
  constructor
  · intro i1 j1 v h hv
    by_cases hij : i1 = i ∧ j1 = j
    · obtain ⟨rfl, rfl⟩ := hij
      rw [cellAt_setCell_same hg hi hj] at h
      have := Option.some.inj h
      omega
    · rw [cellAt_setCell_ne grid _ hij] at h
      have := hval i1 j1 v h hv
      omega
  · intro v h1 h2
    by_cases hv : v = ((k + 1 : Nat) : Int)
    · refine ⟨i, j, hi, hj, ?_, ?_⟩
      · rw [hv]; exact cellAt_setCell_same hg hi hj _
      · intro i1 j1 h
        by_contra hij
        rw [cellAt_setCell_ne grid _ hij] at h
        have := hval i1 j1 v h (by omega)
        omega
    · have h2k : v ≤ (k : Int) := by omega
      obtain ⟨a, b, ha, hb, hab, huniq⟩ := hex v h1 h2k
      have hne : ¬ (a = i ∧ b = j) := by
        rintro ⟨rfl, rfl⟩
        rw [h0] at hab
        have := Option.some.inj hab
        omega
      refine ⟨a, b, ha, hb, ?_, ?_⟩
      · rw [cellAt_setCell_ne grid _ hne]; exact hab
      · intro i1 j1 h
        by_cases hij : i1 = i ∧ j1 = j
        · obtain ⟨rfl, rfl⟩ := hij
          rw [cellAt_setCell_same hg hi hj] at h
          exact absurd (Option.some.inj h).symm hv
        · rw [cellAt_setCell_ne grid _ hij] at h
          exact huniq i1 j1 h

/-! ## Lemmas on one pass of the loop -/

theorem freeCell_true {R C : Nat} {grid : List (List Int)} {o : Bool} {r c : Int}
    (h : freeCell R C grid o r c = Except.ok true) :
    o = false ∧ 0 ≤ r ∧ r < (R : Int) ∧ 0 ≤ c ∧ c < (C : Int) ∧
      cellAt grid r.toNat c.toNat = some 0 := by
  unfold freeCell at h
  cases o with
  | true => simp at h
  | false =>
    simp only [Bool.false_eq_true, if_false] at h
    unfold readCell at h
    by_cases hb : 0 ≤ r ∧ r < (R : Int) ∧ 0 ≤ c ∧ c < (C : Int)
    · rw [if_pos hb] at h
      cases hc : cellAt grid r.toNat c.toNat with
      | none => simp [hc] at h
      | some v =>
        simp only [hc] at h
        have hv : v = 0 := by simpa using h
        subst hv
        exact ⟨rfl, hb.1, hb.2.1, hb.2.2.1, hb.2.2.2, rfl⟩
    · rw [if_neg hb] at h
      simp at h

theorem freeCell_defined {R C : Nat} {grid : List (List Int)} (hg : GridWF R C grid)
    {o : Bool} {r c : Int}
    (hin : o = false → 0 ≤ r ∧ r < (R : Int) ∧ 0 ≤ c ∧ c < (C : Int)) :
    ∃ b, freeCell R C grid o r c = Except.ok b := by
  unfold freeCell
  cases o with
  | true => exact ⟨false, rfl⟩
  | false =>
    have hb := hin rfl
    simp only [Bool.false_eq_true, if_false]
    unfold readCell
    rw [if_pos hb]
    obtain ⟨v, hv⟩ := cellAt_some hg (i := r.toNat) (j := c.toNat) (by omega) (by omega)
    rw [hv]
    exact ⟨_, rfl⟩

theorem checkDirs_ok {R C : Nat} {w : Walk} {d : Dirs} (h : checkDirs R C w = Except.ok d) :
    freeCell R C w.grid (decide (w.row - 1 < 0)) (w.row - 1) w.col = Except.ok d.up ∧
    freeCell R C w.grid (decide (w.row + 1 ≥ (R : Int))) (w.row + 1) w.col = Except.ok d.down ∧
    freeCell R C w.grid (decide (w.col - 1 < 0)) w.row (w.col - 1) = Except.ok d.left ∧
    freeCell R C w.grid (decide (w.col + 1 ≥ (C : Int))) w.row (w.col + 1) = Except.ok d.right := by
  unfold checkDirs at h
  split at h
  · cases h
  · split at h
    · cases h
    · split at h
      · cases h
      · split at h
        · cases h
        · cases h
          refine ⟨?_, ?_, ?_, ?_⟩ <;> assumption

theorem checkDirs_defined {R C : Nat} {w : Walk} (hg : GridWF R C w.grid)
    (hr0 : 0 ≤ w.row) (hr1 : w.row < (R : Int)) (hc0 : 0 ≤ w.col) (hc1 : w.col < (C : Int)) :
    ∃ d, checkDirs R C w = Except.ok d := by
  obtain ⟨u, hu⟩ := freeCell_defined hg (o := decide (w.row - 1 < 0)) (r := w.row - 1)
    (c := w.col) (by intro h; simp at h; omega)
  obtain ⟨dn, hdn⟩ := freeCell_defined hg (o := decide (w.row + 1 ≥ (R : Int)))
    (r := w.row + 1) (c := w.col) (by intro h; simp at h; omega)
  obtain ⟨l, hl⟩ := freeCell_defined hg (o := decide (w.col - 1 < 0)) (r := w.row)
    (c := w.col - 1) (by intro h; simp at h; omega)
  obtain ⟨rt, hrt⟩ := freeCell_defined hg (o := decide (w.col + 1 ≥ (C : Int)))
    (r := w.row) (c := w.col + 1) (by intro h; simp at h; omega)
  refine ⟨{ up := u, down := dn, left := l, right := rt }, ?_⟩
  unfold checkDirs
  rw [hu]; simp only
  rw [hdn]; simp only
  rw [hl]; simp only
  rw [hrt]

theorem moveTo_ok {R C : Nat} (w : Walk) {r c : Int} {v : Int}
    (hr0 : 0 ≤ r) (hr1 : r < (R : Int)) (hc0 : 0 ≤ c) (hc1 : c < (C : Int))
    (hcell : cellAt w.grid r.toNat c.toNat = some v) :
    moveTo R C w r c =
      Except.ok ({ w with grid := setCell w.grid r.toNat c.toNat (w.counter : Int),
                          row := r, col := c, counter := w.counter + 1 }, true) := by
  unfold moveTo writeCell
  rw [if_pos ⟨hr0, hr1, hc0, hc1⟩, hcell]

theorem moveTo_eq_mark {R C : Nat} (w : Walk) {r c : Int} {v : Int}
    (hr0 : 0 ≤ r) (hr1 : r < (R : Int)) (hc0 : 0 ≤ c) (hc1 : c < (C : Int))
    (hcell : cellAt w.grid r.toNat c.toNat = some v) :
    moveTo R C w r c = Except.ok (w.mark r c, true) :=
  moveTo_ok w hr0 hr1 hc0 hc1 hcell

/-- A set flag means that the neighbour is inside the grid and holds 0. -/
theorem avail_free {R C : Nat} {w : Walk} {d : Dirs} (h : checkDirs R C w = Except.ok d)
    {dir : Dir} (ha : d.avail dir = true) :
    0 ≤ (w.neighbour dir).1 ∧ (w.neighbour dir).1 < (R : Int) ∧
    0 ≤ (w.neighbour dir).2 ∧ (w.neighbour dir).2 < (C : Int) ∧
    cellAt w.grid (w.neighbour dir).1.toNat (w.neighbour dir).2.toNat = some 0 := by
  obtain ⟨h1, h2, h3, h4⟩ := checkDirs_ok h
  cases dir with
  | up =>
    simp only [Dirs.avail] at ha
    rw [ha] at h1
    exact (freeCell_true h1).2
  | down =>
    simp only [Dirs.avail] at ha
    rw [ha] at h2
    exact (freeCell_true h2).2
  | left =>
    simp only [Dirs.avail] at ha
    rw [ha] at h3
    exact (freeCell_true h3).2
  | right =>
    simp only [Dirs.avail] at ha
    rw [ha] at h4
    exact (freeCell_true h4).2

theorem firstAvailable_avail {d : Dirs} {order : List Dir} {dir : Dir}
    (h : firstAvailable d order = some dir) : d.avail dir = true := by
  unfold firstAvailable at h
  exact List.find?_some h

/-- The `switch` tries the labels `direction .. 3` in turn. -/
theorem switchDirection_eq {R C : Nat} {w : Walk} {d : Dirs}
    (h : checkDirs R C w = Except.ok d) (direction : Nat) :
    switchDirection R C direction d w = Except.ok (moveFirst d (fallthroughOrder direction) w) := by
  have hmv : ∀ dir, d.avail dir = true →
      moveTo R C w (w.neighbour dir).1 (w.neighbour dir).2
        = Except.ok (w.mark (w.neighbour dir).1 (w.neighbour dir).2, true) := by
    intro dir ha
    obtain ⟨a, b, c, e, f⟩ := avail_free h ha
    exact moveTo_eq_mark w a b c e f
  have hu := hmv Dir.up
  have hd := hmv Dir.down
  have hl := hmv Dir.left
  have hr := hmv Dir.right
  simp only [Dirs.avail, Walk.neighbour] at hu hd hl hr
  rcases d with ⟨u, dn, l, r⟩
  simp only at hu hd hl hr
  match direction with
  | 0 =>
    cases u <;> cases dn <;> cases l <;> cases r <;>
      simp_all [switchDirection, case0, case1, case2, case3, moveFirst, firstAvailable,
        fallthroughOrder, List.range, List.range.loop, Dir.ofLabel, Dirs.avail, Walk.neighbour]
  | 1 =>
    cases u <;> cases dn <;> cases l <;> cases r <;>
      simp_all [switchDirection, case0, case1, case2, case3, moveFirst, firstAvailable,
        fallthroughOrder, List.range, List.range.loop, Dir.ofLabel, Dirs.avail, Walk.neighbour]
  | 2 =>
    cases u <;> cases dn <;> cases l <;> cases r <;>
      simp_all [switchDirection, case0, case1, case2, case3, moveFirst, firstAvailable,
        fallthroughOrder, List.range, List.range.loop, Dir.ofLabel, Dirs.avail, Walk.neighbour]
  | 3 =>
    cases u <;> cases dn <;> cases l <;> cases r <;>
      simp_all [switchDirection, case0, case1, case2, case3, moveFirst, firstAvailable,
        fallthroughOrder, List.range, List.range.loop, Dir.ofLabel, Dirs.avail, Walk.neighbour]
  | n + 4 =>
    have : fallthroughOrder (n + 4) = [] := by
      unfold fallthroughOrder
      rw [List.drop_eq_nil_of_le (by simp)]
      rfl
    simp [switchDirection, moveFirst, firstAvailable, this]

theorem stepBody_eq {R C : Nat} {w : Walk} {d : Dirs}
    (h : checkDirs R C w = Except.ok d) (direction : Nat) :
    stepBody R C direction w =
      if (!d.up && !d.down && !d.left && !d.right) = true then Except.ok none
      else Except.ok (some (moveFirst d (fallthroughOrder direction) w)) := by
  unfold stepBody
  rw [h]
  simp only
  split
  · rfl
  · rw [switchDirection_eq h]

theorem keepsMarks_setCell {grid : List (List Int)} {i j : Nat}
    (h0 : cellAt grid i j = some 0) (v : Int) : KeepsMarks grid (setCell grid i j v) := by
  intro i1 j1 v1 h hv
  have hne : ¬ (i1 = i ∧ j1 = j) := by
    rintro ⟨rfl, rfl⟩
    rw [h0] at h
    exact hv (Option.some.inj h).symm
  rw [cellAt_setCell_ne grid _ hne]
  exact h

theorem keepsMarks_refl (grid : List (List Int)) : KeepsMarks grid grid :=
  fun _ _ _ h _ => h

theorem keepsMarks_trans {g1 g2 g3 : List (List Int)} (h12 : KeepsMarks g1 g2)
    (h23 : KeepsMarks g2 g3) : KeepsMarks g1 g3 :=
  fun i j v h hv => h23 i j v (h12 i j v h hv) hv

/-- The invariant only reads the grid, the position, the counter and the polls. -/
theorem walkInv_of_eq {R C p0 : Nat} {w w1 : Walk} (h : WalkInv R C p0 w)
    (hg : w1.grid = w.grid) (hr : w1.row = w.row) (hc : w1.col = w.col)
    (hk : w1.counter = w.counter) (hp : w1.polls = w.polls) : WalkInv R C p0 w1 := by
  unfold WalkInv at *
  rw [hg, hr, hc, hk, hp]
  exact h

/-- A move to a free cell inside the grid keeps the invariant. -/
theorem walkInv_mark {R C p0 : Nat} {w : Walk} (hinv : WalkInv R C p0 w)
    (hle : w.counter ≤ R * C) {r c : Int}
    (hr0 : 0 ≤ r) (hr1 : r < (R : Int)) (hc0 : 0 ≤ c) (hc1 : c < (C : Int))
    (hcell : cellAt w.grid r.toNat c.toNat = some 0) (t : Nat) :
    WalkInv R C p0 { w.mark r c with draws := t, polls := (w.mark r c).polls + 1 } := by
  obtain ⟨hg, _, _, _, _, h2, _, hm, _, hp⟩ := hinv
  have hi : r.toNat < R := by omega
  have hj : c.toNat < C := by omega
  have hk : ((w.counter - 1 + 1 : Nat) : Int) = (w.counter : Int) := by
    have : w.counter - 1 + 1 = w.counter := by omega
    rw [this]
  have hmarks := marks_setCell hg hm hi hj hcell
  rw [hk] at hmarks
  have hk2 : w.counter - 1 + 1 = w.counter + 1 - 1 := by omega
  rw [hk2] at hmarks
  refine ⟨gridWF_setCell hg _ _ _, hr0, hr1, hc0, hc1, ?_, ?_, hmarks, ?_, ?_⟩
  · show 2 ≤ w.counter + 1
    omega
  · show w.counter + 1 ≤ R * C + 1
    omega
  · show cellAt (setCell w.grid r.toNat c.toNat (w.counter : Int)) r.toNat c.toNat
        = some (((w.counter + 1 : Nat) : Int) - 1)
    rw [cellAt_setCell_same hg hi hj]
    congr 1
    push_cast
    ring
  · show w.polls + 1 + 2 = w.counter + 1 + p0
    omega

/-- A draw of 0 reaches every direction. -/
theorem firstAvailable_zero {d : Dirs}
    (h : ¬ (!d.up && !d.down && !d.left && !d.right) = true) :
    ∃ dir, firstAvailable d (fallthroughOrder 0) = some dir := by
  rcases d with ⟨u, dn, l, r⟩
  cases u <;> cases dn <;> cases l <;> cases r <;>
    first
      | exact absurd rfl h
      | exact ⟨_, rfl⟩

/-- What one pass of the inner loop does to a state that satisfies the
invariant. -/
theorem loopStep_inv {R C p0 : Nat} (rand : Nat → Nat) (kbd : Nat → Bool) {w : Walk}
    (hinv : WalkInv R C p0 w) :
    (∃ w1, loopStep R C rand kbd w = Config.running w1 ∧ WalkInv R C p0 w1 ∧
        KeepsMarks w.grid w1.grid ∧ w1.draws = w.draws + 1 ∧
        (w1.counter = w.counter + 1 ∨ (w1.counter = w.counter ∧ rand w.draws % 4 ≠ 0))) ∨
    (∃ w1, loopStep R C rand kbd w = Config.exited w1 ∧ WalkInv R C p0 w1 ∧
        KeepsMarks w.grid w1.grid ∧ ∃ i, kbd i = true) ∨
    (loopStep R C rand kbd w = Config.blocked w ∧ w.counter ≤ R * C ∧
        checkDirs R C w = Except.ok { up := false, down := false, left := false, right := false }) ∨
    (loopStep R C rand kbd w = Config.full w ∧ w.counter = R * C + 1) := by
  have hinv0 := hinv
  obtain ⟨hg, hr0, hr1, hc0, hc1, h2, hk, hm, hcur, hp⟩ := hinv
  by_cases hle : w.counter ≤ R * C
  · obtain ⟨d, hd⟩ := checkDirs_defined hg hr0 hr1 hc0 hc1
    unfold loopStep
    rw [if_pos hle, stepBody_eq hd]
    by_cases hb : (!d.up && !d.down && !d.left && !d.right) = true
    · right; right; left
      rw [if_pos hb]
      refine ⟨rfl, hle, ?_⟩
      rw [hd]
      rcases d with ⟨u, dn, l, r⟩
      cases u <;> cases dn <;> cases l <;> cases r <;> simp_all
    · rw [if_neg hb]
      simp only
      cases hfa : firstAvailable d (fallthroughOrder (rand w.draws % 4)) with
      | none =>
        left
        have hmf : moveFirst d (fallthroughOrder (rand w.draws % 4)) w = (w, false) := by
          unfold moveFirst; rw [hfa]
        rw [hmf]
        refine ⟨{ w with draws := w.draws + 1 }, by simp, ?_, keepsMarks_refl _, rfl, ?_⟩
        · exact walkInv_of_eq hinv0 rfl rfl rfl rfl rfl
        · right
          refine ⟨rfl, ?_⟩
          intro h0
          rw [h0] at hfa
          obtain ⟨dir, hdir⟩ := firstAvailable_zero hb
          rw [hdir] at hfa
          cases hfa
      | some dir =>
        have hmf : moveFirst d (fallthroughOrder (rand w.draws % 4)) w
            = (w.mark (w.neighbour dir).1 (w.neighbour dir).2, true) := by
          unfold moveFirst; rw [hfa]
        rw [hmf]
        obtain ⟨a, b, c, e, f⟩ := avail_free hd (firstAvailable_avail hfa)
        have hnew := walkInv_mark hinv0 hle a b c e f
          ((w.mark (w.neighbour dir).1 (w.neighbour dir).2).draws + 1)
        have hkeep : KeepsMarks w.grid (w.mark (w.neighbour dir).1 (w.neighbour dir).2).grid :=
          keepsMarks_setCell f _
        simp only [if_true]
        by_cases hkey : kbd (w.mark (w.neighbour dir).1 (w.neighbour dir).2).polls = true
        · right; left
          rw [if_pos hkey]
          exact ⟨_, rfl, hnew, hkeep, _, hkey⟩
        · left
          rw [if_neg hkey]
          exact ⟨_, rfl, hnew, hkeep, rfl, Or.inl rfl⟩
  · right; right; right
    unfold loopStep
    rw [if_neg hle]
    exact ⟨rfl, by omega⟩

/-! ## Lemmas on a cycle -/

/-- The start of a cycle on a cleared grid marks an origin inside the grid. -/
theorem cycleStart_inv {R C : Nat} (hR : 1 ≤ R) (hC : 1 ≤ C) (rand : Nat → Nat) {w0 : Walk}
    (hgrid : w0.grid = zeroGrid R C) (hcnt : w0.counter = 1) :
    ∃ w1, cycleStart R C rand w0 = Except.ok w1 ∧ WalkInv R C w0.polls w1 ∧
      w1.counter = 2 ∧ w1.polls = w0.polls ∧ w1.draws = w0.draws + 5 ∧
      w1.row = ((rand w0.draws % R : Nat) : Int) ∧
      w1.col = ((rand (w0.draws + 1) % C : Nat) : Int) ∧
      w1.grid = setCell (zeroGrid R C) (rand w0.draws % R) (rand (w0.draws + 1) % C) 1 := by
  have hi : rand w0.draws % R < R := Nat.mod_lt _ (by omega)
  have hj : rand (w0.draws + 1) % C < C := Nat.mod_lt _ (by omega)
  have hb : 0 ≤ ((rand w0.draws % R : Nat) : Int) ∧ ((rand w0.draws % R : Nat) : Int) < (R : Int) ∧
      0 ≤ ((rand (w0.draws + 1) % C : Nat) : Int) ∧
      ((rand (w0.draws + 1) % C : Nat) : Int) < (C : Int) := by
    refine ⟨by omega, by omega, by omega, by omega⟩
  have hcell := cellAt_zeroGrid hi hj
  have hwf := gridWF_zeroGrid R C
  have hmarks := marks_setCell hwf (marks_zeroGrid R C) hi hj hcell
  have hRC : 1 ≤ R * C := Nat.mul_pos hR hC
  unfold cycleStart
  rw [if_neg (by omega), if_neg (by omega)]
  simp only
  unfold writeCell
  rw [if_pos hb, hgrid, hcnt]
  simp only [Int.toNat_ofNat, hcell]
  refine ⟨_, rfl, ?_, rfl, rfl, rfl, rfl, rfl, rfl⟩
  refine ⟨gridWF_setCell hwf _ _ _, hb.1, hb.2.1, hb.2.2.1, hb.2.2.2, ?_, ?_, ?_, ?_, ?_⟩
  · show 2 ≤ 1 + 1
    omega
  · show 1 + 1 ≤ R * C + 1
    omega
  · exact hmarks
  · show cellAt (setCell (zeroGrid R C) _ _ _) (Int.toNat _) (Int.toNat _) = _
    simp only [Int.toNat_ofNat]
    rw [cellAt_setCell_same hwf hi hj]
    rfl
  · show w0.polls + 2 = 1 + 1 + w0.polls
    omega

/-- Fuel can be split: the loop run for `m + k` passes is the loop run for
`m` passes and then, if it is still running, for `k` more. -/
theorem innerLoop_add (R C : Nat) (rand : Nat → Nat) (kbd : Nat → Bool) (m k : Nat) (w : Walk) :
    innerLoop R C rand kbd (m + k) w =
      match innerLoop R C rand kbd m w with
      | Config.running w1 => innerLoop R C rand kbd k w1
      | c => c := by
  induction m generalizing w with
  | zero => simp [innerLoop]
  | succ m ih =>
    have hmk : m + 1 + k = (m + k) + 1 := by omega
    rw [hmk]
    simp only [innerLoop]
    cases hs : loopStep R C rand kbd w with
    | running w1 => simp only; exact ih w1
    | blocked w1 => rfl
    | full w1 => rfl
    | exited w1 => rfl
    | fault f => rfl

/-- The loop keeps the invariant and the marks, and does not fault. -/
theorem innerLoop_inv {R C p0 : Nat} (rand : Nat → Nat) (kbd : Nat → Bool) (n : Nat) {w : Walk}
    (hinv : WalkInv R C p0 w) :
    ∃ w1, (innerLoop R C rand kbd n w).walk? = some w1 ∧ WalkInv R C p0 w1 ∧
      KeepsMarks w.grid w1.grid := by
  induction n generalizing w with
  | zero => exact ⟨w, rfl, hinv, keepsMarks_refl _⟩
  | succ n ih =>
    simp only [innerLoop]
    rcases loopStep_inv rand kbd hinv with ⟨w1, hs, hi1, hk1, _, _⟩ | ⟨w1, hs, hi1, hk1, _⟩ |
      ⟨hs, _, _⟩ | ⟨hs, _⟩
    · rw [hs]
      simp only
      obtain ⟨w2, h2, hi2, hk2⟩ := ih hi1
      exact ⟨w2, h2, hi2, keepsMarks_trans hk1 hk2⟩
    · rw [hs]
      exact ⟨w1, rfl, hi1, hk1⟩
    · rw [hs]
      exact ⟨w, rfl, hinv, keepsMarks_refl _⟩
    · rw [hs]
      exact ⟨w, rfl, hinv, keepsMarks_refl _⟩

/-- Every configuration of a cycle carries a state that satisfies the
invariant, and the marks of an earlier configuration are kept. -/
theorem cycleRun_inv {R C : Nat} (hR : 1 ≤ R) (hC : 1 ≤ C) (rand : Nat → Nat)
    (kbd : Nat → Bool) {w0 : Walk} (hgrid : w0.grid = zeroGrid R C) (hcnt : w0.counter = 1)
    (m k : Nat) :
    ∃ wm wn, (cycleRun R C rand kbd m w0).walk? = some wm ∧
      (cycleRun R C rand kbd (m + k) w0).walk? = some wn ∧
      WalkInv R C w0.polls wm ∧ WalkInv R C w0.polls wn ∧ KeepsMarks wm.grid wn.grid := by
  obtain ⟨w1, hs, hi1, _⟩ := cycleStart_inv hR hC rand hgrid hcnt
  unfold cycleRun
  rw [hs]
  simp only
  rw [innerLoop_add]
  obtain ⟨wm, hm, him, _⟩ := innerLoop_inv rand kbd m hi1
  cases hc : innerLoop R C rand kbd m w1 with
  | running w2 =>
    rw [hc] at hm
    simp only [Config.walk?] at hm
    cases hm
    simp only
    obtain ⟨wn, hn, hin, hkn⟩ := innerLoop_inv rand kbd k him
    exact ⟨wm, wn, rfl, hn, him, hin, hkn⟩
  | blocked w2 =>
    rw [hc] at hm
    exact ⟨wm, wm, hm, hm, him, him, keepsMarks_refl _⟩
  | full w2 =>
    rw [hc] at hm
    exact ⟨wm, wm, hm, hm, him, him, keepsMarks_refl _⟩
  | exited w2 =>
    rw [hc] at hm
    exact ⟨wm, wm, hm, hm, him, him, keepsMarks_refl _⟩
  | fault f =>
    rw [hc] at hm
    cases hm

/-- How the loop can have been left: by the `break` only with all four flags
cleared, by the loop test only with `counter = rows * cols + 1`, by the exit
only after a key press. -/
theorem innerLoop_final {R C p0 : Nat} (rand : Nat → Nat) (kbd : Nat → Bool) (n : Nat)
    {w : Walk} (hinv : WalkInv R C p0 w) :
    (∀ w1, innerLoop R C rand kbd n w = Config.blocked w1 →
      w1.counter ≤ R * C ∧
      checkDirs R C w1 = Except.ok { up := false, down := false, left := false, right := false }) ∧
    (∀ w1, innerLoop R C rand kbd n w = Config.full w1 → w1.counter = R * C + 1) ∧
    (∀ w1, innerLoop R C rand kbd n w = Config.exited w1 → ∃ i, kbd i = true) := by
  induction n generalizing w with
  | zero =>
    refine ⟨?_, ?_, ?_⟩ <;> intro w1 h <;> simp [innerLoop] at h
  | succ n ih =>
    simp only [innerLoop]
    rcases loopStep_inv rand kbd hinv with ⟨w1, hs, hi1, _⟩ | ⟨w1, hs, _, _, hkey⟩ |
      ⟨hs, hle, hd⟩ | ⟨hs, hfull⟩
    · rw [hs]
      exact ih hi1
    · rw [hs]
      refine ⟨?_, ?_, ?_⟩
      · intro w2 h; cases h
      · intro w2 h; cases h
      · intro w2 _; exact hkey
    · rw [hs]
      refine ⟨?_, ?_, ?_⟩
      · intro w2 h; cases h; exact ⟨hle, hd⟩
      · intro w2 h; cases h
      · intro w2 h; cases h
    · rw [hs]
      refine ⟨?_, ?_, ?_⟩
      · intro w2 h; cases h
      · intro w2 h; cases h; exact hfull
      · intro w2 h; cases h

/-- With a draw of 0 at most `gap` draws ahead the loop is left, provided it
is left from every state with a larger counter. -/
theorem innerLoop_finishes_gap {R C p0 : Nat} (rand : Nat → Nat) (kbd : Nat → Bool)
    (m : Nat)
    (ih : ∀ w1 : Walk, WalkInv R C p0 w1 → R * C + 1 - w1.counter < m →
      ∃ n, (innerLoop R C rand kbd n w1).finished = true)
    (gap : Nat) (w : Walk) (hinv : WalkInv R C p0 w) (hm : R * C + 1 - w.counter = m)
    (hzero : rand (w.draws + gap) % 4 = 0) :
    ∃ n, (innerLoop R C rand kbd n w).finished = true := by
  induction gap generalizing w with
  | zero =>
    rcases loopStep_inv rand kbd hinv with ⟨w1, hs, hi1, _, _, hcase⟩ | ⟨w1, hs, _⟩ |
      ⟨hs, _⟩ | ⟨hs, _⟩
    · rcases hcase with hc | ⟨_, hne⟩
      · have hk := hi1.2.2.2.2.2.2.1
        obtain ⟨n, hn⟩ := ih w1 hi1 (by omega)
        refine ⟨n + 1, ?_⟩
        simp only [innerLoop]
        rw [hs]
        exact hn
      · exact absurd hzero hne
    · exact ⟨1, by simp only [innerLoop]; rw [hs]; rfl⟩
    · exact ⟨1, by simp only [innerLoop]; rw [hs]; rfl⟩
    · exact ⟨1, by simp only [innerLoop]; rw [hs]; rfl⟩
  | succ gap ihg =>
    rcases loopStep_inv rand kbd hinv with ⟨w1, hs, hi1, _, hdraws, hcase⟩ | ⟨w1, hs, _⟩ |
      ⟨hs, _⟩ | ⟨hs, _⟩
    · rcases hcase with hc | ⟨hc, _⟩
      · have hk := hi1.2.2.2.2.2.2.1
        obtain ⟨n, hn⟩ := ih w1 hi1 (by omega)
        refine ⟨n + 1, ?_⟩
        simp only [innerLoop]
        rw [hs]
        exact hn
      · have hz : rand (w1.draws + gap) % 4 = 0 := by
          rw [hdraws]
          have : w.draws + 1 + gap = w.draws + (gap + 1) := by omega
          rw [this]
          exact hzero
        obtain ⟨n, hn⟩ := ihg w1 hi1 (by omega) hz
        refine ⟨n + 1, ?_⟩
        simp only [innerLoop]
        rw [hs]
        exact hn
    · exact ⟨1, by simp only [innerLoop]; rw [hs]; rfl⟩
    · exact ⟨1, by simp only [innerLoop]; rw [hs]; rfl⟩
    · exact ⟨1, by simp only [innerLoop]; rw [hs]; rfl⟩

/-- When the draw 0 keeps coming back the loop is left. -/
theorem innerLoop_finishes {R C p0 : Nat} (rand : Nat → Nat) (kbd : Nat → Bool)
    (hfair : DrawsUpAgain rand) (m : Nat) :
    ∀ w : Walk, WalkInv R C p0 w → R * C + 1 - w.counter = m →
      ∃ n, (innerLoop R C rand kbd n w).finished = true := by
  induction m using Nat.strong_induction_on with
  | _ m ih =>
    intro w hinv hm
    obtain ⟨u, hu, hzero⟩ := hfair w.draws
    obtain ⟨gap, rfl⟩ := Nat.exists_eq_add_of_le hu
    refine innerLoop_finishes_gap rand kbd m ?_ gap w hinv hm hzero
    intro w1 hi1 hlt
    exact ih _ hlt w1 hi1 rfl


/-- A cell that exists holds what is written to it. -/
theorem cellAt_setCell_self {grid : List (List Int)} {i j : Nat} {v0 : Int}
    (h : cellAt grid i j = some v0) (v : Int) : cellAt (setCell grid i j v) i j = some v := by
  unfold cellAt at h
  cases hi : grid[i]? with
  | none => simp [hi] at h
  | some cells =>
    simp only [hi] at h
    have h1 : i < grid.length := by
      by_contra hcon
      rw [List.getElem?_eq_none (by omega)] at hi
      cases hi
    have h2 : j < cells.length := by
      by_contra hcon
      rw [List.getElem?_eq_none (by omega)] at h
      cases h
    unfold setCell cellAt
    rw [hi]
    simp only
    rw [List.getElem?_set_self (by simpa using h1)]
    simp only
    rw [List.getElem?_set_self (by simpa using h2)]

/-! ## Lemmas on the reset -/

/-- A well-formed grid whose cells all hold 0 is the cleared grid. -/
theorem eq_zeroGrid {R C : Nat} {grid : List (List Int)} (hg : GridWF R C grid)
    (h0 : ∀ i j, i < R → j < C → cellAt grid i j = some 0) : grid = zeroGrid R C := by
  obtain ⟨hlen, hrow⟩ := hg
  unfold zeroGrid
  apply List.ext_getElem
  · simp [hlen]
  · intro i h1 h2
    have hiR : i < R := by omega
    have hmem : grid[i] ∈ grid := List.getElem_mem h1
    have hl := hrow _ hmem
    rw [List.getElem_replicate]
    apply List.ext_getElem
    · simp [hl]
    · intro j h3 h4
      have hjC : j < C := by omega
      have hc := h0 i j hiR hjC
      unfold cellAt at hc
      rw [List.getElem?_eq_getElem h1] at hc
      simp only at hc
      rw [List.getElem?_eq_getElem h3] at hc
      rw [List.getElem_replicate]
      exact Option.some.inj hc

/-- The inner `for` of the reset clears the last `k` cells of row `i`. -/
theorem resetCols_spec {R C : Nat} {i : Nat} (hi : i < R) (k : Nat) (hk : k ≤ C)
    {grid : List (List Int)} (hg : GridWF R C grid) :
    ∃ grid1, resetCols R C i k grid = Except.ok grid1 ∧ GridWF R C grid1 ∧
      ∀ a b, cellAt grid1 a b
        = if a = i ∧ C - k ≤ b ∧ b < C then some 0 else cellAt grid a b := by
  induction k generalizing grid with
  | zero =>
    refine ⟨grid, rfl, hg, ?_⟩
    intro a b
    rw [if_neg (by omega)]
  | succ k ih =>
    have hj : C - (k + 1) < C := by omega
    obtain ⟨v, hv⟩ := cellAt_some hg hi hj
    have hb : (0 : Int) ≤ (i : Int) ∧ (i : Int) < (R : Int) ∧
        (0 : Int) ≤ ((C - (k + 1) : Nat) : Int) ∧ ((C - (k + 1) : Nat) : Int) < (C : Int) := by
      refine ⟨by omega, by omega, by omega, by omega⟩
    have hw : writeCell R C grid (i : Int) ((C - (k + 1) : Nat) : Int) 0
        = Except.ok (setCell grid i (C - (k + 1)) 0) := by
      unfold writeCell
      rw [if_pos hb]
      simp only [Int.toNat_ofNat, hv]
    obtain ⟨grid1, h1, hg1, hc1⟩ := ih (by omega) (gridWF_setCell hg i (C - (k + 1)) 0)
    refine ⟨grid1, ?_, hg1, ?_⟩
    · simp only [resetCols]
      rw [hw]
      exact h1
    · intro a b
      rw [hc1 a b]
      by_cases hab : a = i ∧ C - k ≤ b ∧ b < C
      · rw [if_pos hab, if_pos (by omega)]
      · rw [if_neg hab]
        by_cases hab2 : a = i ∧ b = C - (k + 1)
        · obtain ⟨rfl, rfl⟩ := hab2
          rw [cellAt_setCell_same hg hi hj, if_pos (by omega)]
        · rw [cellAt_setCell_ne grid _ hab2, if_neg (by omega)]

/-- The outer `for` of the reset clears the last `k` rows. -/
theorem resetRows_spec {R C : Nat} (k : Nat) (hk : k ≤ R)
    {grid : List (List Int)} (hg : GridWF R C grid) :
    ∃ grid1, resetRows R C k grid = Except.ok grid1 ∧ GridWF R C grid1 ∧
      ∀ a b, b < C → cellAt grid1 a b
        = if R - k ≤ a ∧ a < R then some 0 else cellAt grid a b := by
  induction k generalizing grid with
  | zero =>
    refine ⟨grid, rfl, hg, ?_⟩
    intro a b _
    rw [if_neg (by omega)]
  | succ k ih =>
    have hi : R - (k + 1) < R := by omega
    obtain ⟨grid0, h0, hg0, hc0⟩ := resetCols_spec hi C (Nat.le_refl C) hg
    obtain ⟨grid1, h1, hg1, hc1⟩ := ih (by omega) hg0
    refine ⟨grid1, ?_, hg1, ?_⟩
    · simp only [resetRows]
      rw [h0]
      exact h1
    · intro a b hb
      rw [hc1 a b hb, hc0 a b]
      by_cases ha : R - k ≤ a ∧ a < R
      · rw [if_pos ha, if_pos (by omega)]
      · rw [if_neg ha]
        by_cases ha2 : a = R - (k + 1)
        · rw [if_pos (by omega), if_pos (by omega)]
        · rw [if_neg (by omega), if_neg (by omega)]

/-- The reset at the end of a cycle leaves the cleared grid and `counter = 1`:
the next cycle starts as the first one did. -/
theorem cycleReset_fresh {R C : Nat} {w : Walk} (hg : GridWF R C w.grid) :
    cycleReset R C w = Except.ok { w with grid := zeroGrid R C, counter := 1 } := by
  obtain ⟨grid1, h1, hg1, hc1⟩ := resetRows_spec R (Nat.le_refl R) hg
  have hz : grid1 = zeroGrid R C := by
    apply eq_zeroGrid hg1
    intro i j hi hj
    rw [hc1 i j hj, if_pos (by omega)]
  unfold cycleReset
  rw [h1, hz]

/-! ## Lemmas on the keyboard poll -/

theorem hasFlag_nonblock (x : Nat) : hasFlag (x ||| O_NONBLOCK) O_NONBLOCK = true := by
  have h : (x ||| O_NONBLOCK) &&& O_NONBLOCK = O_NONBLOCK := by
    apply Nat.eq_of_testBit_eq
    intro i
    simp only [Nat.testBit_and, Nat.testBit_or]
    cases x.testBit i <;> cases O_NONBLOCK.testBit i <;> rfl
  unfold hasFlag
  rw [h]
  decide

theorem hasFlag_icanon_cleared (x : Nat) :
    hasFlag (x &&& flagComplement (ICANON ||| ECHO)) ICANON = false := by
  have h : (x &&& flagComplement (ICANON ||| ECHO)) &&& ICANON = 0 := by
    rw [Nat.land_assoc]
    have : flagComplement (ICANON ||| ECHO) &&& ICANON = 0 := by decide
    rw [this]
    simp
  unfold hasFlag
  rw [h]
  decide

/-! ## The range of the geometry -/

/-- The fields of `struct winsize` are `unsigned short`: the number of cells
of the grid, and with it every step index, stays below `2^31`. -/
theorem winsize_cells_fit_int (ws : Winsize) (hr : ws.ws_row < 2 ^ 16)
    (hc : ws.ws_col < 2 ^ 16) : ws.ws_row * (ws.ws_col / COL_WIDTH) + 1 < 2 ^ 31 := by
  have h1 : ws.ws_col / COL_WIDTH ≤ 21845 := by
    unfold COL_WIDTH
    omega
  have h2 : ws.ws_row ≤ 65535 := by omega
  have h3 : ws.ws_row * (ws.ws_col / COL_WIDTH) ≤ 65535 * 21845 := Nat.mul_le_mul h2 h1
  omega

/-! ## Properties of the specification -/

/-- C1: on a grid of at least one row and one column, at every point of a
walk cycle started on an all-zero grid with counter 1 the cycle carries a
state whose non-zero cells hold exactly the values `1..k`, each in exactly one
cell, for `k = counter - 1 ≤ rows * cols`; and every non-zero cell of an
earlier point of the cycle holds the same value at every later point. -/
theorem C1_marks_contiguous (R C : Nat) (hR : 1 ≤ R) (hC : 1 ≤ C) (rand : Nat → Nat)
    (kbd : Nat → Bool) (w0 : Walk) (hgrid : w0.grid = zeroGrid R C) (hcnt : w0.counter = 1)
    (m n : Nat) (hmn : m ≤ n) :
    ∃ wm wn, (cycleRun R C rand kbd m w0).walk? = some wm ∧
      (cycleRun R C rand kbd n w0).walk? = some wn ∧
      wn.counter - 1 ≤ R * C ∧ MarksExactly R C wn.grid (wn.counter - 1) ∧
      KeepsMarks wm.grid wn.grid := by
  obtain ⟨k, rfl⟩ := Nat.exists_eq_add_of_le hmn
  obtain ⟨wm, wn, hm, hn, _, hin, hkeep⟩ := cycleRun_inv hR hC rand kbd hgrid hcnt m k
  obtain ⟨_, _, _, _, _, _, hk, hmarks, _, _⟩ := hin
  exact ⟨wm, wn, hm, hn, by omega, hmarks, hkeep⟩

/-- C1 at a 2 x 3 grid with the draws 0, 1, 2, ..., after one and after four
passes of the loop. -/
theorem C1_marks_contiguous_witness :
    1 ≤ 2 ∧ 1 ≤ 3 ∧ (startWalk 2 3 0 0 0 0 0).grid = zeroGrid 2 3 ∧
    (startWalk 2 3 0 0 0 0 0).counter = 1 ∧ 1 ≤ 4 ∧
    ∃ wm wn, (cycleRun 2 3 (fun t => t) (fun _ => false) 1 (startWalk 2 3 0 0 0 0 0)).walk?
        = some wm ∧
      (cycleRun 2 3 (fun t => t) (fun _ => false) 4 (startWalk 2 3 0 0 0 0 0)).walk? = some wn ∧
      wn.counter - 1 ≤ 2 * 3 ∧ MarksExactly 2 3 wn.grid (wn.counter - 1) ∧
      KeepsMarks wm.grid wn.grid :=
  ⟨by decide, by decide, rfl, rfl, by decide,
    C1_marks_contiguous 2 3 (by decide) (by decide) (fun t => t) (fun _ => false)
      (startWalk 2 3 0 0 0 0 0) rfl rfl 1 4 (by decide)⟩

/-- C2: from every state reached in a cycle and for every direction draw, a
successful step ends one row or one column away from where it began, inside
the grid, on a cell that held 0 before the step and holds the previous
counter value after it. -/
theorem C2_step_adjacent (R C : Nat) (hR : 1 ≤ R) (hC : 1 ≤ C) (rand : Nat → Nat)
    (kbd : Nat → Bool) (w0 : Walk) (hgrid : w0.grid = zeroGrid R C) (hcnt : w0.counter = 1)
    (n : Nat) (w : Walk) (hreach : (cycleRun R C rand kbd n w0).walk? = some w)
    (direction : Nat) (w1 : Walk)
    (hstep : stepBody R C direction w = Except.ok (some (w1, true))) :
    (w1.row - w.row).natAbs + (w1.col - w.col).natAbs = 1 ∧
    0 ≤ w1.row ∧ w1.row < (R : Int) ∧ 0 ≤ w1.col ∧ w1.col < (C : Int) ∧
    cellAt w.grid w1.row.toNat w1.col.toNat = some 0 ∧
    cellAt w1.grid w1.row.toNat w1.col.toNat = some (w.counter : Int) ∧
    w1.counter = w.counter + 1 := by
  obtain ⟨wm, _, hm, _, him, _, _⟩ := cycleRun_inv hR hC rand kbd hgrid hcnt n 0
  rw [hreach] at hm
  cases hm
  obtain ⟨hg, hr0, hr1, hc0, hc1, _⟩ := him
  obtain ⟨d, hd⟩ := checkDirs_defined hg hr0 hr1 hc0 hc1
  rw [stepBody_eq hd] at hstep
  split at hstep
  · cases hstep
  · have hmf : moveFirst d (fallthroughOrder direction) w = (w1, true) := by
      have := Except.ok.inj hstep
      exact Option.some.inj this
    unfold moveFirst at hmf
    cases hfa : firstAvailable d (fallthroughOrder direction) with
    | none =>
      rw [hfa] at hmf
      simp at hmf
    | some dir =>
      rw [hfa] at hmf
      simp only [Prod.mk.injEq, and_true] at hmf
      obtain ⟨a, b, c, e, f⟩ := avail_free hd (firstAvailable_avail hfa)
      subst hmf
      refine ⟨?_, a, b, c, e, f, ?_, rfl⟩
      · cases dir <;> simp [Walk.mark, Walk.neighbour]
      · exact cellAt_setCell_same hg (by omega) (by omega) _

/-- C2 at a 2 x 3 grid: the first step of the cycle with the draws 0, 1, 2, ... -/
theorem C2_step_adjacent_witness :
    1 ≤ 2 ∧ 1 ≤ 3 ∧ (startWalk 2 3 0 0 0 0 0).grid = zeroGrid 2 3 ∧
    (startWalk 2 3 0 0 0 0 0).counter = 1 ∧
    (cycleRun 2 3 (fun t => t) (fun _ => false) 0 (startWalk 2 3 0 0 0 0 0)).walk?
      = some { grid := [[0, 1, 0], [0, 0, 0]], row := 0, col := 1, r := 2, g := 3, b := 4,
               counter := 2, draws := 5, polls := 0 } ∧
    stepBody 2 3 1 { grid := [[0, 1, 0], [0, 0, 0]], row := 0, col := 1, r := 2, g := 3, b := 4,
                     counter := 2, draws := 5, polls := 0 }
      = Except.ok (some ({ grid := [[0, 1, 0], [0, 2, 0]], row := 1, col := 1, r := 2, g := 3,
                           b := 4, counter := 3, draws := 5, polls := 0 }, true)) ∧
    (((1 : Int) - 0).natAbs + ((1 : Int) - 1).natAbs = 1 ∧
      (0 : Int) ≤ 1 ∧ (1 : Int) < ((2 : Nat) : Int) ∧ (0 : Int) ≤ 1 ∧ (1 : Int) < ((3 : Nat) : Int) ∧
      cellAt [[0, 1, 0], [0, 0, 0]] (1 : Int).toNat (1 : Int).toNat = some 0 ∧
      cellAt [[0, 1, 0], [0, 2, 0]] (1 : Int).toNat (1 : Int).toNat = some ((2 : Nat) : Int) ∧
      3 = 2 + 1) :=
  ⟨by decide, by decide, rfl, rfl, rfl, rfl,
    C2_step_adjacent 2 3 (by decide) (by decide) (fun t => t) (fun _ => false)
      (startWalk 2 3 0 0 0 0 0) rfl rfl 0 _ rfl 1 _ rfl⟩

/-- With every draw equal to 3 the walk standing at the bottom of a grid of
two rows and one column never moves: right is not available. -/
theorem stalled_stays (t n : Nat) :
    innerLoop 2 1 (fun _ => 3) (fun _ => false) n
      { grid := [[0], [1]], row := 1, col := 0, r := 3, g := 3, b := 3, counter := 2,
        draws := t, polls := 0 }
    = Config.running
      { grid := [[0], [1]], row := 1, col := 0, r := 3, g := 3, b := 3, counter := 2,
        draws := t + n, polls := 0 } := by
  induction n generalizing t with
  | zero => rfl
  | succ n ih =>
    have hstep : loopStep 2 1 (fun _ => 3) (fun _ => false)
        { grid := [[0], [1]], row := 1, col := 0, r := 3, g := 3, b := 3, counter := 2,
          draws := t, polls := 0 }
      = Config.running
        { grid := [[0], [1]], row := 1, col := 0, r := 3, g := 3, b := 3, counter := 2,
          draws := t + 1, polls := 0 } := rfl
    simp only [innerLoop]
    rw [hstep]
    simp only
    rw [ih (t + 1)]
    have : t + 1 + n = t + (n + 1) := by omega
    rw [this]

/-- C3 fails as stated: on a grid of two rows and one column, with every draw
equal to 3 (origin `(1, 0)`, since `3 % 2 = 1` and `3 % 1 = 0`) and no key
pressed, the cell above is free but the cycle never leaves its inner loop. -/
theorem C3_counterexample :
    ¬ ∃ n, (cycleRun 2 1 (fun _ => 3) (fun _ => false) n (startWalk 2 1 0 0 0 0 0)).finished
      = true := by
  rintro ⟨n, hn⟩
  have hrun : cycleRun 2 1 (fun _ => 3) (fun _ => false) n (startWalk 2 1 0 0 0 0 0)
      = innerLoop 2 1 (fun _ => 3) (fun _ => false) n
        { grid := [[0], [1]], row := 1, col := 0, r := 3, g := 3, b := 3, counter := 2,
          draws := 5, polls := 0 } := rfl
  rw [hrun, stalled_stays] at hn
  simp [Config.finished] at hn

/-- C3, amended: on a grid of at least one row and one column, for every
sequence of draws, a cycle makes at most `rows * cols - 1` successful steps
(`polls` counts them, and `counter` is the number of steps plus two); the
inner loop is left by the `break` only with all four directions blocked and by
the loop test only with `counter = rows * cols + 1`; and when the draw 0
keeps coming back the loop is left, by one of these two ways if no key is
ever pressed. -/
theorem C3_cycle_ends_when_zero_recurs (R C : Nat) (hR : 1 ≤ R) (hC : 1 ≤ C)
    (rand : Nat → Nat) (kbd : Nat → Bool) (w0 : Walk) (hgrid : w0.grid = zeroGrid R C)
    (hcnt : w0.counter = 1) :
    (∀ n, ∃ w, (cycleRun R C rand kbd n w0).walk? = some w ∧
      (w.polls - w0.polls) + 1 ≤ R * C ∧ w.counter = (w.polls - w0.polls) + 2) ∧
    (∀ n w, cycleRun R C rand kbd n w0 = Config.blocked w →
      w.counter ≤ R * C ∧
      checkDirs R C w = Except.ok { up := false, down := false, left := false, right := false }) ∧
    (∀ n w, cycleRun R C rand kbd n w0 = Config.full w → w.counter = R * C + 1) ∧
    (DrawsUpAgain rand → ∃ n, (cycleRun R C rand kbd n w0).finished = true) ∧
    (DrawsUpAgain rand → (∀ i, kbd i = false) →
      ∃ n w, cycleRun R C rand kbd n w0 = Config.blocked w ∨
        cycleRun R C rand kbd n w0 = Config.full w) := by
  obtain ⟨w1, hs, hi1, _⟩ := cycleStart_inv hR hC rand hgrid hcnt
  have hrun : ∀ n, cycleRun R C rand kbd n w0 = innerLoop R C rand kbd n w1 := by
    intro n
    unfold cycleRun
    rw [hs]
  have hfin : DrawsUpAgain rand → ∃ n, (cycleRun R C rand kbd n w0).finished = true := by
    intro hfair
    obtain ⟨n, hn⟩ := innerLoop_finishes rand kbd hfair _ w1 hi1 rfl
    exact ⟨n, by rw [hrun]; exact hn⟩
  refine ⟨?_, ?_, ?_, hfin, ?_⟩
  · intro n
    obtain ⟨w, hw, hiw, _⟩ := innerLoop_inv rand kbd n hi1
    obtain ⟨_, _, _, _, _, h2, hk, _, _, hp⟩ := hiw
    exact ⟨w, by rw [hrun]; exact hw, by omega, by omega⟩
  · intro n w h
    rw [hrun] at h
    exact (innerLoop_final rand kbd n hi1).1 w h
  · intro n w h
    rw [hrun] at h
    exact (innerLoop_final rand kbd n hi1).2.1 w h
  · intro hfair hkbd
    obtain ⟨n, hn⟩ := hfin hfair
    refine ⟨n, ?_⟩
    cases hc : cycleRun R C rand kbd n w0 with
    | running w => rw [hc] at hn; simp [Config.finished] at hn
    | blocked w => exact ⟨w, Or.inl rfl⟩
    | full w => exact ⟨w, Or.inr rfl⟩
    | exited w =>
      rw [hrun] at hc
      obtain ⟨i, hi⟩ := (innerLoop_final rand kbd n hi1).2.2 w hc
      rw [hkbd i] at hi
      cases hi
    | fault f => rw [hc] at hn; simp [Config.finished] at hn

/-- C3, amended, at a 2 x 3 grid with the draws 0, 1, 2, ... and no key. -/
theorem C3_cycle_ends_when_zero_recurs_witness :
    1 ≤ 2 ∧ 1 ≤ 3 ∧ (startWalk 2 3 0 0 0 0 0).grid = zeroGrid 2 3 ∧
    (startWalk 2 3 0 0 0 0 0).counter = 1 ∧ DrawsUpAgain (fun t => t) ∧
    (∀ i, (fun _ : Nat => false) i = false) ∧
    (∃ n, (cycleRun 2 3 (fun t => t) (fun _ => false) n (startWalk 2 3 0 0 0 0 0)).finished
      = true) ∧
    (∃ n w, cycleRun 2 3 (fun t => t) (fun _ => false) n (startWalk 2 3 0 0 0 0 0)
        = Config.blocked w ∨
      cycleRun 2 3 (fun t => t) (fun _ => false) n (startWalk 2 3 0 0 0 0 0) = Config.full w) :=
  have hfair : DrawsUpAgain (fun t => t) :=
    fun t => ⟨4 * t, by omega, by simp⟩
  have h := C3_cycle_ends_when_zero_recurs 2 3 (by decide) (by decide) (fun t => t)
    (fun _ => false) (startWalk 2 3 0 0 0 0 0) rfl rfl
  ⟨by decide, by decide, rfl, rfl, hfair, fun _ => rfl, h.2.2.2.1 hfair,
    h.2.2.2.2 hfair (fun _ => rfl)⟩

/-- C4 fails as stated: in the state reached at the bottom of a grid of two
rows and one column, up is available and a draw of 3 would resolve to up in
the cyclic order 3, 0, 1, 2; the `switch` makes no move. -/
theorem C4_counterexample :
    cycleRun 2 1 (fun _ => 3) (fun _ => false) 0 (startWalk 2 1 0 0 0 0 0)
      = Config.running { grid := [[0], [1]], row := 1, col := 0, r := 3, g := 3, b := 3,
                         counter := 2, draws := 5, polls := 0 } ∧
    checkDirs 2 1 { grid := [[0], [1]], row := 1, col := 0, r := 3, g := 3, b := 3,
                    counter := 2, draws := 5, polls := 0 }
      = Except.ok { up := true, down := false, left := false, right := false } ∧
    firstAvailable { up := true, down := false, left := false, right := false } (cyclicOrder 3)
      = some Dir.up ∧
    stepBody 2 1 3 { grid := [[0], [1]], row := 1, col := 0, r := 3, g := 3, b := 3,
                     counter := 2, draws := 5, polls := 0 }
      = Except.ok (some ({ grid := [[0], [1]], row := 1, col := 0, r := 3, g := 3, b := 3,
                           counter := 2, draws := 5, polls := 0 }, false)) ∧
    stepBody 2 1 3 { grid := [[0], [1]], row := 1, col := 0, r := 3, g := 3, b := 3,
                     counter := 2, draws := 5, polls := 0 }
      ≠ Except.ok (some (moveFirst { up := true, down := false, left := false, right := false }
          (cyclicOrder 3)
          { grid := [[0], [1]], row := 1, col := 0, r := 3, g := 3, b := 3,
            counter := 2, draws := 5, polls := 0 })) := by
  refine ⟨rfl, rfl, rfl, rfl, ?_⟩
  intro h
  have hstay : stepBody 2 1 3 { grid := [[0], [1]], row := 1, col := 0, r := 3, g := 3, b := 3,
                                counter := 2, draws := 5, polls := 0 }
      = Except.ok (some ({ grid := [[0], [1]], row := 1, col := 0, r := 3, g := 3, b := 3,
                           counter := 2, draws := 5, polls := 0 }, false)) := rfl
  have hmoved : false = true :=
    congrArg Prod.snd (Option.some.inj (Except.ok.inj (hstay.symm.trans h)))
  cases hmoved

/-- C4, amended: in every state in which at least one direction is available
and for every drawn direction, the step moves to the first available
direction in the order `direction, direction + 1, ..., 3` of the case labels,
without wrapping round to the labels below `direction`; when none of these is
available the step makes no move and leaves the state as it is; a draw of 0
always moves. -/
theorem C4_fallthrough_order (R C : Nat) (w : Walk) (d : Dirs) (direction : Nat)
    (hd : checkDirs R C w = Except.ok d)
    (hav : (!d.up && !d.down && !d.left && !d.right) = false) :
    stepBody R C direction w
      = Except.ok (some (moveFirst d (fallthroughOrder direction) w)) ∧
    (firstAvailable d (fallthroughOrder direction) = none →
      stepBody R C direction w = Except.ok (some (w, false))) ∧
    (∀ dir, firstAvailable d (fallthroughOrder direction) = some dir →
      stepBody R C direction w
        = Except.ok (some (w.mark (w.neighbour dir).1 (w.neighbour dir).2, true))) ∧
    (moveFirst d (fallthroughOrder 0) w).2 = true := by
  have hne : ¬ (!d.up && !d.down && !d.left && !d.right) = true := by
    rw [hav]; simp
  have hbody : stepBody R C direction w
      = Except.ok (some (moveFirst d (fallthroughOrder direction) w)) := by
    rw [stepBody_eq hd, if_neg hne]
  refine ⟨hbody, ?_, ?_, ?_⟩
  · intro hnone
    rw [hbody]
    unfold moveFirst
    rw [hnone]
  · intro dir hsome
    rw [hbody]
    unfold moveFirst
    rw [hsome]
  · obtain ⟨dir, hdir⟩ := firstAvailable_zero hne
    unfold moveFirst
    rw [hdir]

/-- C4, amended, at a 2 x 3 grid: at `(0, 1)` a draw of 2 moves left. -/
theorem C4_fallthrough_order_witness :
    checkDirs 2 3 { grid := [[0, 1, 0], [0, 0, 0]], row := 0, col := 1, r := 2, g := 3, b := 4,
                    counter := 2, draws := 5, polls := 0 }
      = Except.ok { up := false, down := true, left := true, right := true } ∧
    (!false && !true && !true && !true) = false ∧
    stepBody 2 3 2 { grid := [[0, 1, 0], [0, 0, 0]], row := 0, col := 1, r := 2, g := 3, b := 4,
                     counter := 2, draws := 5, polls := 0 }
      = Except.ok (some (moveFirst { up := false, down := true, left := true, right := true }
          (fallthroughOrder 2)
          { grid := [[0, 1, 0], [0, 0, 0]], row := 0, col := 1, r := 2, g := 3, b := 4,
            counter := 2, draws := 5, polls := 0 })) :=
  ⟨rfl, rfl,
    (C4_fallthrough_order 2 3
      { grid := [[0, 1, 0], [0, 0, 0]], row := 0, col := 1, r := 2, g := 3, b := 4,
        counter := 2, draws := 5, polls := 0 }
      { up := false, down := true, left := true, right := true } 2 rfl rfl).1⟩

/-- C5: in every state whose only available direction is right, a drawn
direction of up (0) resolves to right: the step is successful, the row is
unchanged, the column is one more, the counter is one more and the new cell
holds the previous counter value. -/
theorem C5_up_resolves_to_right (R C : Nat) (w : Walk)
    (hd : checkDirs R C w
      = Except.ok { up := false, down := false, left := false, right := true }) :
    ∃ w1, stepBody R C 0 w = Except.ok (some (w1, true)) ∧
      w1.row = w.row ∧ w1.col = w.col + 1 ∧ w1.counter = w.counter + 1 ∧
      cellAt w.grid w1.row.toNat w1.col.toNat = some 0 ∧
      cellAt w1.grid w1.row.toNat w1.col.toNat = some (w.counter : Int) ∧
      KeepsMarks w.grid w1.grid := by
  have hright : ({ up := false, down := false, left := false, right := true } : Dirs).avail
      Dir.right = true := rfl
  have hfree := avail_free hd hright
  simp only [Walk.neighbour] at hfree
  obtain ⟨_, _, _, _, hcell⟩ := hfree
  refine ⟨w.mark w.row (w.col + 1), ?_, rfl, rfl, rfl, hcell, ?_, ?_⟩
  · rw [stepBody_eq hd]
    rfl
  · exact cellAt_setCell_self hcell _
  · exact keepsMarks_setCell hcell _

/-- C5 on a grid of one row and two columns, the walk at the leftmost cell
and the cell to its right free. -/
theorem C5_up_resolves_to_right_witness :
    checkDirs 1 2 { grid := [[1, 0]], row := 0, col := 0, r := 7, g := 8, b := 9,
                    counter := 2, draws := 5, polls := 0 }
      = Except.ok { up := false, down := false, left := false, right := true } ∧
    ∃ w1, stepBody 1 2 0 { grid := [[1, 0]], row := 0, col := 0, r := 7, g := 8, b := 9,
                           counter := 2, draws := 5, polls := 0 }
        = Except.ok (some (w1, true)) ∧
      w1.row = 0 ∧ w1.col = 0 + 1 ∧ w1.counter = 2 + 1 ∧
      cellAt [[1, 0]] w1.row.toNat w1.col.toNat = some 0 ∧
      cellAt w1.grid w1.row.toNat w1.col.toNat = some ((2 : Nat) : Int) ∧
      KeepsMarks [[1, 0]] w1.grid :=
  ⟨rfl, C5_up_resolves_to_right 1 2
    { grid := [[1, 0]], row := 0, col := 0, r := 7, g := 8, b := 9,
      counter := 2, draws := 5, polls := 0 } rfl⟩

/-- C6: when the window-size query reports `ws_col ≠ 0`, `get_window_size`
returns 0 with `rows = ws_row` and `cols = ws_col`, and the grid of `main` has
`ws_row` rows and `ws_col / 3` columns; a report of 24 rows and 80 columns
gives a grid of 24 x 26. -/
theorem C6_grid_from_winsize (ws_row ws_col : Nat) (hcol : ws_col ≠ 0)
    (writeCorner write6n : Bool) (input : List Nat) (scan : List Nat → Option (Nat × Nat)) :
    get_window_size (some { ws_row := ws_row, ws_col := ws_col }) writeCorner write6n input scan
      = Geometry.ok ws_row ws_col ∧
    gridSize (some { ws_row := ws_row, ws_col := ws_col }) writeCorner write6n input scan
      = some (ws_row, ws_col / 3) ∧
    gridSize (some { ws_row := 24, ws_col := 80 }) writeCorner write6n input scan
      = some (24, 26) := by
  have h : get_window_size (some { ws_row := ws_row, ws_col := ws_col }) writeCorner write6n
      input scan = Geometry.ok ws_row ws_col := by
    unfold get_window_size
    simp only
    rw [if_neg hcol]
  refine ⟨h, ?_, rfl⟩
  unfold gridSize
  rw [h]
  rfl

/-- C6 at the report of 24 rows and 80 columns. -/
theorem C6_grid_from_winsize_witness :
    80 ≠ 0 ∧
    get_window_size (some { ws_row := 24, ws_col := 80 }) true true [] (fun _ => none)
      = Geometry.ok 24 80 ∧
    gridSize (some { ws_row := 24, ws_col := 80 }) true true [] (fun _ => none)
      = some (24, 80 / 3) ∧
    gridSize (some { ws_row := 24, ws_col := 80 }) true true [] (fun _ => none)
      = some (24, 26) :=
  ⟨by decide, C6_grid_from_winsize 24 80 (by decide) true true [] (fun _ => none)⟩

/-- C7: on a grid of one row and one column, for every sequence of draws, a
cycle marks the cell `(0, 0)` with 1, leaves the inner loop at its first test
with `counter = 2` and without a successful step, and the reset at the end of
the cycle leaves the grid all zero and the counter at 1. -/
theorem C7_single_cell (rand : Nat → Nat) (kbd : Nat → Bool) (w0 : Walk)
    (hgrid : w0.grid = zeroGrid 1 1) (hcnt : w0.counter = 1) (n : Nat) :
    ∃ w1 w2, cycleStart 1 1 rand w0 = Except.ok w1 ∧
      w1.grid = [[1]] ∧ w1.row = 0 ∧ w1.col = 0 ∧ w1.counter = 2 ∧ w1.polls = w0.polls ∧
      cycleRun 1 1 rand kbd (n + 1) w0 = Config.full w1 ∧
      cycleReset 1 1 w1 = Except.ok w2 ∧
      w2.grid = zeroGrid 1 1 ∧ w2.counter = 1 ∧ w2.polls = w0.polls := by
  obtain ⟨w1, hs, _, hc, hp, _, hrow, hcol, hg⟩ :=
    cycleStart_inv (R := 1) (C := 1) (by decide) (by decide) rand hgrid hcnt
  simp only [Nat.mod_one] at hrow hcol hg
  have hg1 : w1.grid = [[1]] := by rw [hg]; rfl
  have hfull : loopStep 1 1 rand kbd w1 = Config.full w1 := by
    unfold loopStep
    rw [if_neg (by rw [hc]; decide)]
  refine ⟨w1, { w1 with grid := zeroGrid 1 1, counter := 1 }, hs, hg1, ?_, ?_, hc, hp, ?_, ?_,
    rfl, rfl, hp⟩
  · rw [hrow]; rfl
  · rw [hcol]; rfl
  · unfold cycleRun
    rw [hs]
    simp only [innerLoop]
    rw [hfull]
  · unfold cycleReset
    rw [hg1]
    rfl

/-- C7 with the draws 0, 1, 2, ... and a key that is never pressed. -/
theorem C7_single_cell_witness :
    (startWalk 1 1 0 0 0 0 0).grid = zeroGrid 1 1 ∧ (startWalk 1 1 0 0 0 0 0).counter = 1 ∧
    ∃ w1 w2, cycleStart 1 1 (fun t => t) (startWalk 1 1 0 0 0 0 0) = Except.ok w1 ∧
      w1.grid = [[1]] ∧ w1.row = 0 ∧ w1.col = 0 ∧ w1.counter = 2 ∧
      w1.polls = (startWalk 1 1 0 0 0 0 0).polls ∧
      cycleRun 1 1 (fun t => t) (fun _ => false) (0 + 1) (startWalk 1 1 0 0 0 0 0)
        = Config.full w1 ∧
      cycleReset 1 1 w1 = Except.ok w2 ∧
      w2.grid = zeroGrid 1 1 ∧ w2.counter = 1 ∧ w2.polls = (startWalk 1 1 0 0 0 0 0).polls :=
  ⟨rfl, rfl, C7_single_cell (fun t => t) (fun _ => false) (startWalk 1 1 0 0 0 0 0) rfl rfl 0⟩

/-- C8: in every state of standard input `kbd_hit` returns; its value is
non-zero exactly when a character is pending, and on return the terminal
settings and the file status flags are those of the entry and the bytes still
to be read are the same, in the same order: the detected character has been
pushed back. -/
theorem C8_kbd_hit_restores (s : Stdin) :
    ∃ ret s1, kbd_hit s = some (ret, s1) ∧ (ret ≠ 0 ↔ s.pending = true) ∧
      s1.termios = s.termios ∧ s1.fl = s.fl ∧ s1.unread = s.unread ∧
      s1.unread.head? = s.unread.head? := by
  rcases s with ⟨t, fl, queue, buffer⟩
  cases buffer with
  | cons ch rest =>
    refine ⟨1, { termios := t, fl := fl, queue := queue, buffer := ch :: rest }, ?_, ?_,
      rfl, rfl, rfl, rfl⟩
    · have hne : ((ch : Nat) : Int) ≠ EOF := by unfold EOF; omega
      simp only [kbd_hit, getchar, ungetc, if_pos hne, Int.toNat_ofNat]
    · simp [Stdin.pending]
  | nil =>
    cases queue with
    | cons ch rest =>
      refine ⟨1, { termios := t, fl := fl, queue := [], buffer := ch :: rest }, ?_, ?_,
        rfl, rfl, ?_, ?_⟩
      · have hne : ((ch : Nat) : Int) ≠ EOF := by unfold EOF; omega
        simp only [kbd_hit, getchar, readable, hasFlag_icanon_cleared, Bool.false_eq_true,
          if_false, ungetc, if_pos hne, Int.toNat_ofNat, List.drop_succ_cons, List.drop_length]
      · simp [Stdin.pending]
      · simp [Stdin.unread]
      · simp [Stdin.unread]
    | nil =>
      refine ⟨0, { termios := t, fl := fl, queue := [], buffer := [] }, ?_, ?_,
        rfl, rfl, rfl, rfl⟩
      · have he : ¬ (EOF ≠ EOF) := by simp
        simp only [kbd_hit, getchar, readable, hasFlag_icanon_cleared, Bool.false_eq_true,
          if_false, hasFlag_nonblock, if_true, if_neg he]
      · simp [Stdin.pending]

/-- C9 fails on the code: a window of 24 rows and 2 columns is reported with
return value 0, the grid of `main` then has 24 rows and `2 / 3 = 0` columns,
and the origin draw of every cycle takes a remainder by zero. -/
theorem C9_zero_columns (writeCorner write6n : Bool) (input : List Nat)
    (scan : List Nat → Option (Nat × Nat)) (rand : Nat → Nat) (kbd : Nat → Bool) (n : Nat)
    (w : Walk) :
    get_window_size (some { ws_row := 24, ws_col := 2 }) writeCorner write6n input scan
      = Geometry.ok 24 2 ∧
    gridSize (some { ws_row := 24, ws_col := 2 }) writeCorner write6n input scan
      = some (24, 0) ∧
    cycleStart 24 0 rand w = Except.error Fault.divByZero ∧
    cycleRun 24 0 rand kbd n w = Config.fault Fault.divByZero :=
  ⟨rfl, rfl, rfl, rfl⟩

/-- C10: on a grid of at least one row and one column a cycle never takes a
remainder by zero and never reads or writes a cell outside the grid: at every
point the cycle carries a state, with its position inside the grid, and is
not a fault. -/
theorem C10_indices_in_bounds (R C : Nat) (hR : 1 ≤ R) (hC : 1 ≤ C) (rand : Nat → Nat)
    (kbd : Nat → Bool) (w0 : Walk) (hgrid : w0.grid = zeroGrid R C) (hcnt : w0.counter = 1)
    (n : Nat) :
    (∀ f, cycleRun R C rand kbd n w0 ≠ Config.fault f) ∧
    ∃ w, (cycleRun R C rand kbd n w0).walk? = some w ∧
      0 ≤ w.row ∧ w.row < (R : Int) ∧ 0 ≤ w.col ∧ w.col < (C : Int) := by
  obtain ⟨wm, _, hm, _, him, _, _⟩ := cycleRun_inv hR hC rand kbd hgrid hcnt n 0
  obtain ⟨_, hr0, hr1, hc0, hc1, _⟩ := him
  refine ⟨?_, wm, hm, hr0, hr1, hc0, hc1⟩
  intro f hf
  rw [hf] at hm
  cases hm

/-- C10 at a 2 x 3 grid with the draws 0, 1, 2, ..., after four passes. -/
theorem C10_indices_in_bounds_witness :
    1 ≤ 2 ∧ 1 ≤ 3 ∧ (startWalk 2 3 0 0 0 0 0).grid = zeroGrid 2 3 ∧
    (startWalk 2 3 0 0 0 0 0).counter = 1 ∧
    ((∀ f, cycleRun 2 3 (fun t => t) (fun _ => false) 4 (startWalk 2 3 0 0 0 0 0)
        ≠ Config.fault f) ∧
    ∃ w, (cycleRun 2 3 (fun t => t) (fun _ => false) 4 (startWalk 2 3 0 0 0 0 0)).walk? = some w ∧
      0 ≤ w.row ∧ w.row < ((2 : Nat) : Int) ∧ 0 ≤ w.col ∧ w.col < ((3 : Nat) : Int)) :=
  ⟨by decide, by decide, rfl, rfl,
    C10_indices_in_bounds 2 3 (by decide) (by decide) (fun t => t) (fun _ => false)
      (startWalk 2 3 0 0 0 0 0) rfl rfl 4⟩

end Termsaver
